import Mathlib

/-!
Verification of the subtitle-extraction tool `ffextract-subtitles.py`.

The Python source is shallowly embedded: pure string manipulation and the
stream-filter decision table become Lean functions; the external subprocess
invocations (`ffprobe`, `ffmpeg`) become explicit outcome values; the
filesystem becomes a list of existing file names.
-/

namespace FFExtract

/-! ## String helpers (models of Python `str` operations) -/

/-- Model of Python `str.lower()` restricted to ASCII (sufficient for the
ASCII needle literals `"forc"`, `"sdh"` used by the program). -/
def lowerStr (s : String) : String := ⟨s.data.map Char.toLower⟩

/-- Predicate `startsWithList needle l`: true when `needle` is an initial run of `l`. -/
def startsWithList : List Char → List Char → Bool
  | [], _ => true
  | _ :: _, [] => false
  | a :: as, b :: bs => a == b && startsWithList as bs

/-- Predicate `hasSubstrList needle hay`: true when `needle` occurs contiguously in
`hay`: model of Python `needle in hay`. -/
def hasSubstrList (needle : List Char) : List Char → Bool
  | [] => needle.isEmpty
  | h :: t => startsWithList needle (h :: t) || hasSubstrList needle t

/-- Model of Python `needle in hay` for strings. -/
def hasSubstr (hay needle : String) : Bool := hasSubstrList needle.data hay.data

/-- Split a character list at a separator character; model of Python
`str.split(sep)` for a one-character separator (so `"".split(',') = ['']`). -/
def splitCharList (sep : Char) : List Char → List (List Char)
  | [] => [[]]
  | c :: t =>
    match splitCharList sep t with
    | [] => if c == sep then [[], []] else [[c]]
    | h :: r => if c == sep then [] :: h :: r else (c :: h) :: r

/-- Model of Python `s.split(',')`. -/
def splitComma (s : String) : List String :=
  (splitCharList ',' s.data).map (fun l => ⟨l⟩)

/-- Model of Python `str.rfind(c)`: index of the last occurrence of the
character, `-1` when absent. -/
def pyRFind (c : Char) (d : List Char) : Int :=
  match d.reverse.findIdx? (· == c) with
  | none => -1
  | some j => (d.length : Int) - 1 - j

/-- Model of `posixpath.splitext`: split off the extension beginning at the
last dot of the final path component, unless every character of that
component before the dot is itself a dot. -/
def splitext (p : String) : String × String :=
  let d := p.data
  let sepIndex := pyRFind '/' d
  let dotIndex := pyRFind '.' d
  if sepIndex < dotIndex then
    let fStart := (sepIndex + 1).toNat
    if ((d.drop fStart).take (dotIndex.toNat - fStart)).any (· != '.') then
      (⟨d.take dotIndex.toNat⟩, ⟨d.drop dotIndex.toNat⟩)
    else (p, "")
  else (p, "")

/-- Little-endian base-10 digits with explicit fuel (kernel-evaluable). -/
def toDigitsAux : Nat → Nat → List Nat
  | 0, _ => []
  | _ + 1, 0 => []
  | fuel + 1, n + 1 => ((n + 1) % 10) :: toDigitsAux fuel ((n + 1) / 10)

/-- Little-endian base-10 digits of `n` (empty for zero). -/
def pyDigits (n : Nat) : List Nat := toDigitsAux n n

/-- Model of Python `str(n)` for a non-negative integer: decimal digits,
most significant first, `"0"` for zero. -/
def pyStr (n : Nat) : String :=
  if n = 0 then "0" else ⟨((pyDigits n).map Nat.digitChar).reverse⟩

/-! ## Data model -/

/-- The `FFProbeResult` named tuple of the source. -/
structure FFProbeResult where
  return_code : Int
  json : String
  error : String
deriving DecidableEq, Repr

/-- Outcome of one `subprocess.run` invocation of the probe binary with
`check=True`: success (exit 0), the two exception types the source catches,
and the uncaught process-launch failure (`FileNotFoundError`). -/
inductive SubprocessOutcome where
  | ok (stdout stderr : String)
  | calledProcessError (msg : String)
  | unicodeDecodeError (msg : String)
  | launchFailure (msg : String)
deriving DecidableEq, Repr

/-- Function `ffprobe` of the source: catches `UnicodeDecodeError` and
`CalledProcessError`, returning `FFProbeResult(1212, '', msg)`; a launch
failure (`FileNotFoundError`) is not caught and propagates (`Except.error`). -/
def ffprobe (outcome : SubprocessOutcome) : Except String FFProbeResult :=
  match outcome with
  | .ok out err => .ok ⟨0, out, err⟩
  | .calledProcessError m => .ok ⟨1212, "", m⟩
  | .unicodeDecodeError m => .ok ⟨1212, "", m⟩
  | .launchFailure m => .error m

/-- One stream object of the probe JSON, restricted to the fields the
program reads; `none` models an absent JSON field. -/
structure StreamRec where
  index : Option Int
  codec_type : Option String
  codec_name : Option String
  disposition_forced : Option Int
  tag_language : Option String
  tag_title : Option String
deriving DecidableEq, Repr

/-- The command-line options the decision logic reads
(`argparse` namespace of the source). -/
structure Args where
  language : String
  verbose : Nat
  get_sdh : Bool
  get_forced : Bool
  show_probe : Bool
  scan_only : Bool
deriving DecidableEq, Repr

/-- The `argparse` defaults of the source. -/
def default_args : Args :=
  { language := "fre,fra", verbose := 0, get_sdh := false, get_forced := false,
    show_probe := false, scan_only := false }

/-- The `self.unsupported_codec` list of the source. -/
def unsupported_codec : List String := ["hdmv_pgs_subtitle", "dvd_subtitle"]

/-- Source expression `stream.get("codec_name", "unknown")`. -/
def codec_name_of (s : StreamRec) : String := s.codec_name.getD "unknown"

/-- Source expression `tags.get('language', 'unset')`. -/
def language_of (s : StreamRec) : String := s.tag_language.getD "unset"

/-- Source expression `tags.get('title', 'unset')`. -/
def title_of (s : StreamRec) : String := s.tag_title.getD "unset"

/-- Source expression `is_forced = forced == 1 or 'forc' in title.lower()`,
where `forced = disposition.get('forced', 'unset')`. -/
def is_forced_of (s : StreamRec) : Bool :=
  s.disposition_forced == some 1 || hasSubstr (lowerStr (title_of s)) "forc"

/-- The language-filter step of the source:
`if language != 'unset': if language not in self.args.language.split(','): continue`. -/
def language_excluded (args : Args) (s : StreamRec) : Bool :=
  language_of s != "unset" && !((splitComma args.language).contains (language_of s))

/-- The per-stream decision chain of `get_ffmpeg_track_id`, in source order:
`scan_only` skips everything, then unsupported codec, forced, language and
SDH exclusions; a surviving stream is appended to `streams_to_extract`. -/
def keep_stream (args : Args) (s : StreamRec) : Bool :=
  if args.scan_only then false
  else if unsupported_codec.contains (codec_name_of s) then false
  else if is_forced_of s && !args.get_forced then false
  else if language_excluded args s then false
  else if hasSubstr (lowerStr (title_of s)) "sdh" && !args.get_sdh then false
  else true

/-- The source's `[stream for stream in streams if stream.get("codec_type", "unknown") == 'subtitle']`. -/
def subtitle_streams (streams : List StreamRec) : List StreamRec :=
  streams.filter (fun s => s.codec_type.getD "unknown" == "subtitle")

/-- The `streams_to_extract` list of `get_ffmpeg_track_id`: each qualifying
subtitle stream paired with its 0-based ordinal among subtitle streams,
carrying `(index_subtitle, language, is_forced)`. -/
def streams_to_extract (args : Args) (streams : List StreamRec) :
    List (Nat × String × Bool) :=
  ((subtitle_streams streams).enum.filter (fun p => keep_stream args p.2)).map
    (fun p => (p.1, language_of p.2, is_forced_of p.2))

/-- Output-file naming of the source: `'{}.srt'` for a single decision,
`'{}.{}.{}{}.srt'` (basename, language, ordinal, optional `.forced`)
otherwise. `count` is `len(streams_to_extract)`. -/
def final_name (foutname : String) (count : Nat) (d : Nat × String × Bool) : String :=
  if count == 1 then foutname ++ ".srt"
  else
    foutname ++ "." ++ d.2.1 ++ "." ++ pyStr d.1 ++
      (if d.2.2 then ".forced" else "") ++ ".srt"

/-- The `ffmpeg` command array built by `ffsubextract`: the stream selector
is `0:s:<subtitle_index>`, the subtitle-relative ordinal. -/
def ffsubextract_cmd (file_path : String) (subtitle_index : Nat)
    (fileout_path : String) : List String :=
  ["ffmpeg", "-hide_banner", "-loglevel", "error", "-n", "-i", file_path,
    "-map", "0:s:" ++ pyStr subtitle_index, fileout_path]

/-- Observable outcome of one iteration of the extraction loop: either the
destination already existed (skip, diagnostic), or `ffsubextract` was
invoked with the given command and the destination was written. -/
inductive ExtractEvent where
  | already_exists (name : String)
  | invoked (cmd : List String) (name : String)
deriving DecidableEq, Repr

/-- The extraction loop over `streams_to_extract`: the filesystem is the
list `fs` of existing file names; an existing destination is skipped
(never rewritten), otherwise `ffsubextract` runs and (on success) creates
the destination. `count` is `len(streams_to_extract)`. -/
def extract_loop (file_path : String) (count : Nat) (fs : List String) :
    List (Nat × String × Bool) → List String × List ExtractEvent
  | [] => (fs, [])
  | d :: rest =>
    let name := final_name (splitext file_path).1 count d
    if fs.contains name then
      let r := extract_loop file_path count fs rest
      (r.1, .already_exists name :: r.2)
    else
      let r := extract_loop file_path count (name :: fs) rest
      (r.1, .invoked (ffsubextract_cmd file_path d.1 name) name :: r.2)

/-- The extraction phase of `get_ffmpeg_track_id` for one file: filter the
probed streams, then run the extraction loop. -/
def run_extraction (args : Args) (file_path : String) (streams : List StreamRec)
    (fs : List String) : List String × List ExtractEvent :=
  let ds := streams_to_extract args streams
  extract_loop file_path ds.length fs ds

/-- One candidate file as the orchestrator sees it: its path, the outcome
of the probe subprocess, and the streams its JSON parses to when the probe
succeeded. -/
structure ProbedFile where
  path : String
  outcome : SubprocessOutcome
  streams : List StreamRec

/-- Per-file outcome of `get_ffmpeg_track_id` before extraction: probe
failure (diagnostic printed, file skipped, JSON never parsed) or the
computed decision list. -/
inductive FileEvent where
  | probeError (path : String)
  | processed (path : String) (decisions : List (Nat × String × Bool))
deriving DecidableEq, Repr

/-- The probe-and-filter part of `get_ffmpeg_track_id`: a non-zero
`return_code` skips the file without parsing JSON; an uncaught exception
from `ffprobe` propagates. -/
def process_file (args : Args) (f : ProbedFile) : Except String FileEvent :=
  match ffprobe f.outcome with
  | .error m => .error m
  | .ok r =>
    if r.return_code != 0 then .ok (.probeError f.path)
    else .ok (.processed f.path (streams_to_extract args f.streams))

/-- The orchestrator's loop over candidate files; an uncaught exception
aborts the remaining files. -/
def process_files (args : Args) : List ProbedFile → Except String (List FileEvent)
  | [] => .ok []
  | f :: rest =>
    match process_file args f with
    | .error m => .error m
    | .ok e => (process_files args rest).map (fun l => e :: l)

/-- Modelled from Python `argparse` semantics for the source's
`parser.add_argument('filelist', nargs='+')`: when no positional argument
is given, `parse_args` prints a usage error and exits with status 2;
otherwise it yields the non-empty list. -/
def parse_cli (filelist : List String) : Except Nat (List String) :=
  if filelist.isEmpty then .error 2 else .ok filelist

/-- Function `main` of the source: `argparse` parsing (exit 2 on missing positional),
the source's own `if not args.filelist: sys.exit(1)` guard, then processing;
a normal run returns exit status 0, an uncaught exception propagates
(`Except.error`). -/
def main_exit (args : Args) (filelist : List String) (files : List ProbedFile) :
    Except String Nat :=
  match parse_cli filelist with
  | .error c => .ok c
  | .ok fl =>
    if fl.isEmpty then .ok 1
    else (process_files args files).map (fun _ => 0)

/-! ## Auxiliary definitions for the verification -/

/-- Helper `stripTok tok l`: removes the exact initial run `tok` from `l`,
returning the remainder, or `none` when `l` does not start with `tok`. -/
def stripTok : List Char → List Char → Option (List Char)
  | [], r => some r
  | _ :: _, [] => none
  | t :: ts, c :: cs => if c == t then stripTok ts cs else none

/-- Read, from a reversed multi-decision output name, the reversed decimal
digits of the subtitle ordinal: strip the reversed `.srt`, then an optional
reversed `.forced`, then take the digit run.  Used to show the naming
scheme is injective in the ordinal. -/
def decodeOrd (r : List Char) : Option (List Char) :=
  match stripTok ['t', 'r', 's', '.'] r with
  | none => none
  | some r2 =>
    match stripTok ['d', 'e', 'c', 'r', 'o', 'f', '.'] r2 with
    | some r3 => some (r3.takeWhile (fun c => c.isDigit))
    | none => some (r2.takeWhile (fun c => c.isDigit))

/-! ## Concrete fixtures (probe JSON values observed in practice) -/

/-- A French text subtitle stream with no title tag. -/
def ex_s_fra : StreamRec := ⟨some 2, some "subtitle", some "subrip", some 0, some "fra", none⟩

/-- An English text subtitle stream with no title tag. -/
def ex_s_eng : StreamRec := ⟨some 3, some "subtitle", some "subrip", some 0, some "eng", none⟩

/-- A text subtitle stream with no language and no title tag. -/
def ex_s_nolang : StreamRec := ⟨some 4, some "subtitle", some "subrip", some 0, none, none⟩

/-- An image-based (PGS) subtitle stream, French, otherwise unremarkable. -/
def ex_s_pgs : StreamRec :=
  ⟨some 5, some "subtitle", some "hdmv_pgs_subtitle", some 0, some "fra", none⟩

/-- A video stream, to exercise the `codec_type` filter. -/
def ex_s_video : StreamRec := ⟨some 0, some "video", some "h264", none, none, none⟩

/-- The configuration of the spec's two-stream scenario: `--language fra`. -/
def c7_args : Args := { default_args with language := "fra" }

/-! ## Groundwork lemmas -/

theorem toDigitsAux_eq_digits (fuel : Nat) : ∀ n : Nat, n ≤ fuel →
    toDigitsAux fuel n = Nat.digits 10 n := by
  induction fuel with
  | zero =>
    intro n hn
    interval_cases n
    simp [toDigitsAux]
  | succ fuel ih =>
    intro n hn
    cases n with
    | zero => simp [toDigitsAux]
    | succ m =>
      rw [show toDigitsAux (fuel + 1) (m + 1) =
            ((m + 1) % 10) :: toDigitsAux fuel ((m + 1) / 10) from rfl,
        Nat.digits_def' (by norm_num : (1 : Nat) < 10) (Nat.succ_pos m)]
      have hdiv : (m + 1) / 10 < m + 1 := Nat.div_lt_self (Nat.succ_pos m) (by norm_num)
      rw [ih _ (by omega)]

theorem pyDigits_eq_digits (n : Nat) : pyDigits n = Nat.digits 10 n :=
  toDigitsAux_eq_digits n n (Nat.le_refl n)

theorem digitChar_inj_lt :
    ∀ a, a < 10 → ∀ b, b < 10 → Nat.digitChar a = Nat.digitChar b → a = b := by decide

theorem digitChar_isDigit : ∀ a, a < 10 → (Nat.digitChar a).isDigit = true := by decide

theorem map_digitChar_inj : ∀ l1 l2 : List Nat, (∀ x ∈ l1, x < 10) →
    (∀ x ∈ l2, x < 10) → l1.map Nat.digitChar = l2.map Nat.digitChar → l1 = l2 := by
  intro l1
  induction l1 with
  | nil =>
    intro l2 _ _ h
    cases l2 with
    | nil => rfl
    | cons b bs => simp at h
  | cons a as ih =>
    intro l2 h1 h2 h
    cases l2 with
    | nil => simp at h
    | cons b bs =>
      simp only [List.map_cons, List.cons.injEq] at h
      have ha : a = b :=
        digitChar_inj_lt a (h1 a (by simp)) b (h2 b (by simp)) h.1
      have : as = bs := ih bs (fun x hx => h1 x (by simp [hx]))
        (fun x hx => h2 x (by simp [hx])) h.2
      rw [ha, this]

theorem pyStr_data (n : Nat) (hn : n ≠ 0) :
    (pyStr n).data = ((Nat.digits 10 n).map Nat.digitChar).reverse := by
  rw [pyStr, if_neg hn, pyDigits_eq_digits]

theorem pyStr_inj : ∀ a b : Nat, pyStr a = pyStr b → a = b := by
  have key : ∀ b : Nat, b ≠ 0 → (Nat.digits 10 b).map Nat.digitChar = ['0'] → False := by
    intro b hb hmap
    have hd : Nat.digits 10 b = [0] := by
      cases hdig : Nat.digits 10 b with
      | nil => rw [hdig] at hmap; simp at hmap
      | cons d rest =>
        rw [hdig] at hmap
        simp only [List.map_cons, List.cons.injEq] at hmap
        have hrest : rest = [] := by
          cases rest with
          | nil => rfl
          | cons x xs => simp at hmap
        have hdlt : d < 10 := Nat.digits_lt_base (by norm_num)
          (by rw [hdig]; exact List.mem_cons_self d rest)
        have : d = 0 := digitChar_inj_lt d hdlt 0 (by norm_num) hmap.1
        rw [this, hrest]
    have := Nat.ofDigits_digits 10 b
    rw [hd] at this
    simp [Nat.ofDigits] at this
    exact hb this.symm
  intro a b h
  by_cases ha : a = 0 <;> by_cases hb : b = 0
  · rw [ha, hb]
  · exfalso
    have hdata := congrArg String.data h
    rw [ha] at hdata
    rw [pyStr_data b hb] at hdata
    have : (Nat.digits 10 b).map Nat.digitChar = ['0'] := by
      have := congrArg List.reverse hdata
      simpa using this.symm
    exact key b hb this
  · exfalso
    have hdata := congrArg String.data h
    rw [hb] at hdata
    rw [pyStr_data a ha] at hdata
    have : (Nat.digits 10 a).map Nat.digitChar = ['0'] := by
      have := congrArg List.reverse hdata
      simpa using this
    exact key a ha this
  · have hdata := congrArg String.data h
    rw [pyStr_data a ha, pyStr_data b hb] at hdata
    have hmap : (Nat.digits 10 a).map Nat.digitChar = (Nat.digits 10 b).map Nat.digitChar := by
      have := congrArg List.reverse hdata
      simpa using this
    have hdig : Nat.digits 10 a = Nat.digits 10 b :=
      map_digitChar_inj _ _ (fun x hx => Nat.digits_lt_base (by norm_num) hx)
        (fun x hx => Nat.digits_lt_base (by norm_num) hx) hmap
    have := congrArg (Nat.ofDigits 10) hdig
    rwa [Nat.ofDigits_digits, Nat.ofDigits_digits] at this

theorem pyStr_data_digits (n : Nat) : ∀ c ∈ (pyStr n).data, c.isDigit = true := by
  by_cases hn : n = 0
  · rw [hn]; decide
  · rw [pyStr_data n hn]
    intro c hc
    rw [List.mem_reverse] at hc
    rcases List.mem_map.1 hc with ⟨d, hd, rfl⟩
    exact digitChar_isDigit d (Nat.digits_lt_base (by norm_num) hd)

theorem pyStr_data_ne_nil (n : Nat) : (pyStr n).data ≠ [] := by
  by_cases hn : n = 0
  · rw [hn]; decide
  · rw [pyStr_data n hn]
    simp [Nat.digits_ne_nil_iff_ne_zero.mpr hn]

/-! ## Claims C1 and C2 -/

/-- C1: for every subtitle stream record, `is_forced` is true iff the
disposition's forced flag equals 1 or the title tag contains `"forc"`
case-insensitively; when the title tag is absent (defaulted to `"unset"`),
the stream is forced only via the disposition flag. -/
theorem C1_is_forced_iff (s : StreamRec) :
    (is_forced_of s = true ↔
      s.disposition_forced = some 1 ∨ hasSubstr (lowerStr (title_of s)) "forc" = true) ∧
    (s.tag_title = none → (is_forced_of s = true ↔ s.disposition_forced = some 1)) := by
  constructor
  · simp [is_forced_of]
  · intro h
    have ht : title_of s = "unset" := by simp [title_of, h]
    have hsub : hasSubstr (lowerStr "unset") "forc" = false := by decide
    simp [is_forced_of, ht, hsub]

/-- C1 witness: a stream with an absent title tag and forced flag 0 is
forced exactly when its disposition flag is 1. -/
theorem C1_is_forced_iff_witness :
    is_forced_of ex_s_fra = true ↔ ex_s_fra.disposition_forced = some 1 :=
  (C1_is_forced_iff ex_s_fra).2 rfl

/-- C2: the language-filter step excludes a stream exactly when its language
tag is not `"unset"` and not a member of the wanted-language list; a stream
whose language tag is `"unset"` is never excluded on language grounds. -/
theorem C2_language_filter (args : Args) (s : StreamRec) :
    (language_excluded args s = true ↔
      language_of s ≠ "unset" ∧ language_of s ∉ splitComma args.language) ∧
    (language_of s = "unset" → language_excluded args s = false) := by
  constructor
  · simp [language_excluded, List.contains, List.elem_iff]
  · intro h
    simp [language_excluded, h]

/-- C2 witness: a concrete stream with no language tag is not excluded by
the language filter under the default configuration. -/
theorem C2_language_filter_witness :
    language_excluded default_args ex_s_nolang = false :=
  (C2_language_filter default_args ex_s_nolang).2 rfl

/-! ## Decisions: membership and ordinal structure -/

theorem mem_streams_to_extract (args : Args) (ss : List StreamRec) (d : Nat × String × Bool) :
    d ∈ streams_to_extract args ss ↔
      ∃ s, (subtitle_streams ss)[d.1]? = some s ∧ keep_stream args s = true ∧
        d.2.1 = language_of s ∧ d.2.2 = is_forced_of s := by
  obtain ⟨i, l, f⟩ := d
  constructor
  · intro h
    rcases List.mem_map.1 h with ⟨p, hp, heq⟩
    rcases List.mem_filter.1 hp with ⟨hmem, hkeep⟩
    have hget := List.mem_enum_iff_getElem?.1 hmem
    obtain ⟨hi, hl, hf⟩ : p.1 = i ∧ language_of p.2 = l ∧ is_forced_of p.2 = f := by
      simpa [Prod.ext_iff] using heq
    refine ⟨p.2, ?_, hkeep, hl.symm, hf.symm⟩
    rw [← hi]
    exact hget
  · rintro ⟨s, hget, hkeep, hl, hf⟩
    apply List.mem_map.2
    refine ⟨(i, s), List.mem_filter.2 ⟨List.mem_enum_iff_getElem?.2 hget, hkeep⟩, ?_⟩
    simp [← hl, ← hf]

/-- C6: a stream whose codec is in the unsupported set (`hdmv_pgs_subtitle`,
`dvd_subtitle`) never appears in the extraction-decision set, whatever the
rest of the configuration. -/
theorem C6_unsupported_excluded (args : Args) (ss : List StreamRec)
    (hscan : args.scan_only = false) :
    ∀ d ∈ streams_to_extract args ss, ∀ s : StreamRec,
      (subtitle_streams ss)[d.1]? = some s →
      codec_name_of s ∉ unsupported_codec := by
  intro d hd s hget hmem
  rcases (mem_streams_to_extract args ss d).1 hd with ⟨s', hget', hkeep, _, _⟩
  have hss : s' = s := by
    rw [hget'] at hget
    injection hget
  rw [hss] at hkeep
  simp [keep_stream, hscan] at hkeep
  exact hkeep.1 hmem

/-- C6 witness: in a file whose first subtitle stream is image-based (PGS),
the surviving decision's stream has a codec outside the unsupported set. -/
theorem C6_unsupported_excluded_witness :
    codec_name_of ex_s_fra ∉ unsupported_codec :=
  C6_unsupported_excluded default_args [ex_s_pgs, ex_s_fra] rfl
    (1, "fra", false) (by decide) ex_s_fra (by decide)

theorem subtitle_streams_index_map (g : StreamRec → Option Int) (ss : List StreamRec) :
    subtitle_streams (ss.map (fun s => { s with index := g s })) =
      (subtitle_streams ss).map (fun s => { s with index := g s }) := by
  unfold subtitle_streams
  rw [List.filter_map]
  congr 1

theorem enumFrom_map_pair {α β : Type} (f : α → β) (l : List α) :
    ∀ n : Nat, (l.map f).enumFrom n = (l.enumFrom n).map (fun p => (p.1, f p.2)) := by
  induction l with
  | nil => intro n; rfl
  | cons a t ih => intro n; simp [List.enumFrom, ih]

theorem streams_to_extract_index_map (args : Args) (g : StreamRec → Option Int)
    (ss : List StreamRec) :
    streams_to_extract args (ss.map (fun s => { s with index := g s })) =
      streams_to_extract args ss := by
  unfold streams_to_extract
  rw [subtitle_streams_index_map]
  show ((((subtitle_streams ss).map _).enumFrom 0).filter _).map _ = _
  rw [enumFrom_map_pair, List.filter_map, List.map_map]
  rfl

theorem invoked_mem_extract_loop (path : String) (c : Nat) :
    ∀ (ds : List (Nat × String × Bool)) (fs : List String) (cmd : List String) (nm : String),
      ExtractEvent.invoked cmd nm ∈ (extract_loop path c fs ds).2 →
      ∃ d ∈ ds, nm = final_name (splitext path).1 c d ∧
        cmd = ffsubextract_cmd path d.1 nm := by
  intro ds
  induction ds with
  | nil =>
    intro fs cmd nm h
    simp [extract_loop] at h
  | cons d rest ih =>
    intro fs cmd nm h
    simp only [extract_loop] at h
    split at h
    · rcases List.mem_cons.1 h with heq | htail
      · cases heq
      · rcases ih fs cmd nm htail with ⟨d', hd', h1, h2⟩
        exact ⟨d', List.mem_cons_of_mem d hd', h1, h2⟩
    · rcases List.mem_cons.1 h with heq | htail
      · injection heq with h1 h2
        refine ⟨d, List.mem_cons_self d rest, h2, ?_⟩
        rw [h2]
        exact h1
      · rcases ih _ cmd nm htail with ⟨d', hd', h1, h2⟩
        exact ⟨d', List.mem_cons_of_mem d hd', h1, h2⟩

/-- C5: each extraction decision's ordinal indexes the subtitle-only stream
list (so it is the 0-based position among subtitle streams); the decision
set is invariant under arbitrary rewriting of the container-wide `index`
field; and every extractor invocation's command addresses the stream with
the `0:s:<ordinal>` selector of its decision. -/
theorem C5_ordinal_addressing (args : Args) (ss : List StreamRec)
    (g : StreamRec → Option Int) (path : String) (fs : List String) :
    (∀ d ∈ streams_to_extract args ss,
      ∃ s, (subtitle_streams ss)[d.1]? = some s ∧
        d.2.1 = language_of s ∧ d.2.2 = is_forced_of s) ∧
    streams_to_extract args (ss.map (fun s => { s with index := g s })) =
      streams_to_extract args ss ∧
    (∀ cmd nm, ExtractEvent.invoked cmd nm ∈ (run_extraction args path ss fs).2 →
      ∃ d ∈ streams_to_extract args ss,
        cmd = ffsubextract_cmd path d.1 nm ∧ ("0:s:" ++ pyStr d.1) ∈ cmd) := by
  refine ⟨?_, streams_to_extract_index_map args g ss, ?_⟩
  · intro d hd
    rcases (mem_streams_to_extract args ss d).1 hd with ⟨s, hget, _, hl, hf⟩
    exact ⟨s, hget, hl, hf⟩
  · intro cmd nm h
    rcases invoked_mem_extract_loop path _ _ fs cmd nm h with ⟨d, hd, _, hcmd⟩
    exact ⟨d, hd, hcmd, by rw [hcmd]; simp [ffsubextract_cmd]⟩

/-- C5 witness: in a file whose streams are a video stream then a French
subtitle stream, the decision with ordinal 0 addresses the subtitle stream
(position 0 among subtitle streams, not container index 2). -/
theorem C5_ordinal_addressing_witness :
    ∃ s, (subtitle_streams [ex_s_video, ex_s_fra])[(0 : Nat)]? = some s ∧
      ((0 : Nat), "fra", false).2.1 = language_of s ∧
      ((0 : Nat), "fra", false).2.2 = is_forced_of s :=
  (C5_ordinal_addressing default_args [ex_s_video, ex_s_fra] (fun _ => none)
    "movie.mkv" []).1 (0, "fra", false) (by decide)

/-! ## Extraction loop: no-clobber and idempotence -/

theorem contains_iff_mem_str (l : List String) (a : String) :
    l.contains a = true ↔ a ∈ l := List.elem_iff

theorem extract_loop_fs_mono (path : String) (c : Nat) :
    ∀ (ds : List (Nat × String × Bool)) (fs : List String) (a : String),
      a ∈ fs → a ∈ (extract_loop path c fs ds).1 := by
  intro ds
  induction ds with
  | nil => intro fs a h; exact h
  | cons d rest ih =>
    intro fs a h
    simp only [extract_loop]
    split
    · exact ih fs a h
    · exact ih _ a (List.mem_cons_of_mem _ h)

theorem extract_loop_adds (path : String) (c : Nat) :
    ∀ (ds : List (Nat × String × Bool)) (fs : List String), ∀ d ∈ ds,
      final_name (splitext path).1 c d ∈ (extract_loop path c fs ds).1 := by
  intro ds
  induction ds with
  | nil => intro fs d h; cases h
  | cons d0 rest ih =>
    intro fs d h
    simp only [extract_loop]
    rcases List.mem_cons.1 h with rfl | htail
    · split
      · rename_i hc
        exact extract_loop_fs_mono path c rest fs _ ((contains_iff_mem_str _ _).1 hc)
      · exact extract_loop_fs_mono path c rest _ _ (List.mem_cons_self _ _)
    · split
      · exact ih fs d htail
      · exact ih _ d htail

theorem extract_loop_all_exist (path : String) (c : Nat) :
    ∀ (ds : List (Nat × String × Bool)) (fs : List String),
      (∀ d ∈ ds, final_name (splitext path).1 c d ∈ fs) →
      extract_loop path c fs ds =
        (fs, ds.map (fun d =>
          ExtractEvent.already_exists (final_name (splitext path).1 c d))) := by
  intro ds
  induction ds with
  | nil => intro fs _; rfl
  | cons d0 rest ih =>
    intro fs h
    have hc : fs.contains (final_name (splitext path).1 c d0) = true :=
      (contains_iff_mem_str _ _).2 (h d0 (List.mem_cons_self _ _))
    simp only [extract_loop, hc, if_pos, List.map_cons]
    rw [ih fs (fun d hd => h d (List.mem_cons_of_mem d0 hd))]

theorem invoked_not_mem (path : String) (c : Nat) :
    ∀ (ds : List (Nat × String × Bool)) (fs : List String) (cmd : List String) (nm : String),
      ExtractEvent.invoked cmd nm ∈ (extract_loop path c fs ds).2 → nm ∉ fs := by
  intro ds
  induction ds with
  | nil => intro fs cmd nm h; simp [extract_loop] at h
  | cons d0 rest ih =>
    intro fs cmd nm h
    simp only [extract_loop] at h
    split at h
    · rcases List.mem_cons.1 h with heq | htail
      · cases heq
      · exact ih fs cmd nm htail
    · rename_i hc
      rcases List.mem_cons.1 h with heq | htail
      · injection heq with h1 h2
        rw [h2]
        intro hmem
        exact hc ((contains_iff_mem_str _ _).2 hmem)
      · intro hmem
        exact ih _ cmd nm htail (List.mem_cons_of_mem _ hmem)

theorem exists_implies_skip (path : String) (c : Nat) :
    ∀ (ds : List (Nat × String × Bool)) (fs : List String), ∀ d ∈ ds,
      final_name (splitext path).1 c d ∈ fs →
      ExtractEvent.already_exists (final_name (splitext path).1 c d) ∈
        (extract_loop path c fs ds).2 := by
  intro ds
  induction ds with
  | nil => intro fs d h; cases h
  | cons d0 rest ih =>
    intro fs d h hfs
    simp only [extract_loop]
    rcases List.mem_cons.1 h with rfl | htail
    · simp [hfs]
    · split
      · exact List.mem_cons_of_mem _ (ih fs d htail hfs)
      · exact List.mem_cons_of_mem _ (ih _ d htail (List.mem_cons_of_mem _ hfs))

/-- C4: extraction never overwrites: an extractor invocation's destination
was not an existing file; an existing destination produces the
"already exists" skip event; and re-running extraction over the filesystem
produced by a first run changes nothing and only reports "already exists"
for every decision. -/
theorem C4_idempotent_extraction (args : Args) (path : String) (ss : List StreamRec)
    (fs : List String) :
    (∀ cmd nm, ExtractEvent.invoked cmd nm ∈ (run_extraction args path ss fs).2 →
      nm ∉ fs) ∧
    (∀ d ∈ streams_to_extract args ss,
      final_name (splitext path).1 (streams_to_extract args ss).length d ∈ fs →
      ExtractEvent.already_exists
          (final_name (splitext path).1 (streams_to_extract args ss).length d) ∈
        (run_extraction args path ss fs).2) ∧
    run_extraction args path ss (run_extraction args path ss fs).1 =
      ((run_extraction args path ss fs).1,
        (streams_to_extract args ss).map (fun d =>
          ExtractEvent.already_exists
            (final_name (splitext path).1 (streams_to_extract args ss).length d))) := by
  refine ⟨?_, ?_, ?_⟩
  · intro cmd nm h
    exact invoked_not_mem path _ _ fs cmd nm h
  · intro d hd hfs
    exact exists_implies_skip path _ _ fs d hd hfs
  · exact extract_loop_all_exist path _ _ _
      (fun d hd => extract_loop_adds path _ _ fs d hd)

/-- C4 witness: with `movie.srt` already present, processing `movie.mkv`
with one qualifying French stream reports the skip event for it. -/
theorem C4_idempotent_extraction_witness :
    ExtractEvent.already_exists (final_name (splitext "movie.mkv").1
        (streams_to_extract default_args [ex_s_fra]).length (0, "fra", false)) ∈
      (run_extraction default_args "movie.mkv" [ex_s_fra] ["movie.srt"]).2 :=
  (C4_idempotent_extraction default_args "movie.mkv" [ex_s_fra] ["movie.srt"]).2.1
    (0, "fra", false) (by decide) (by decide)

/-! ## Claims C7–C10 -/

/-- C7 counterexample: in the spec's two-stream scenario (stream 0 French,
stream 1 English, wanted languages `{fra}`), exactly one decision results,
but the computed output path is not `movie.fra.0.srt`: the single-decision
naming rule yields `movie.srt`. -/
theorem C7_counterexample :
    streams_to_extract c7_args [ex_s_fra, ex_s_eng] = [(0, "fra", false)] ∧
    ¬ (final_name (splitext "movie.mkv").1
        (streams_to_extract c7_args [ex_s_fra, ex_s_eng]).length (0, "fra", false) =
          "movie.fra.0.srt") := by decide

/-- C7 (amended): the scenario yields exactly one decision (ordinal 0,
language `fra`) and the computed output path is `movie.srt`, the
single-decision name without language/ordinal segments. -/
theorem C7_scenario :
    streams_to_extract c7_args [ex_s_fra, ex_s_eng] = [(0, "fra", false)] ∧
    run_extraction c7_args "movie.mkv" [ex_s_fra, ex_s_eng] [] =
      (["movie.srt"],
        [ExtractEvent.invoked (ffsubextract_cmd "movie.mkv" 0 "movie.srt") "movie.srt"]) := by
  decide

/-- C8 counterexample: on a process-launch failure (probe binary missing)
the probe invoker does not return a `FFProbeResult` at all — the exception
propagates and aborts the run, so the remaining files are not processed. -/
theorem C8_counterexample :
    ffprobe (SubprocessOutcome.launchFailure "ffprobe missing") =
      Except.error "ffprobe missing" ∧
    process_files default_args
        [⟨"a.mkv", SubprocessOutcome.launchFailure "ffprobe missing", []⟩,
          ⟨"b.mkv", SubprocessOutcome.ok "json" "", [ex_s_fra]⟩] =
      Except.error "ffprobe missing" := ⟨rfl, rfl⟩

/-- C8 (amended): on a non-zero subprocess exit or a text-decoding failure
the probe invoker returns status 1212 (non-zero) with empty JSON, the
caller reports the file as a probe error without using the parsed streams,
and processing of the remaining files continues. -/
theorem C8_probe_failure (args : Args) (m path : String) (ss : List StreamRec)
    (rest : List ProbedFile) :
    ffprobe (SubprocessOutcome.calledProcessError m) = Except.ok ⟨1212, "", m⟩ ∧
    ffprobe (SubprocessOutcome.unicodeDecodeError m) = Except.ok ⟨1212, "", m⟩ ∧
    (1212 : Int) ≠ 0 ∧
    process_file args ⟨path, SubprocessOutcome.calledProcessError m, ss⟩ =
      Except.ok (FileEvent.probeError path) ∧
    process_file args ⟨path, SubprocessOutcome.unicodeDecodeError m, ss⟩ =
      Except.ok (FileEvent.probeError path) ∧
    process_files args (⟨path, SubprocessOutcome.calledProcessError m, ss⟩ :: rest) =
      (process_files args rest).map (fun l => FileEvent.probeError path :: l) := by
  refine ⟨rfl, rfl, by norm_num, rfl, rfl, ?_⟩
  simp [process_files, process_file, ffprobe]

/-- C9: invoked with no `filelist` argument, the program exits with status 2
(the `argparse` usage error for the missing required positional), not 1:
the source's own `sys.exit(1)` guard is unreachable. -/
theorem C9_no_filelist_exit :
    main_exit default_args [] [] = Except.ok 2 ∧
    main_exit default_args [] [] ≠ Except.ok 1 := by
  refine ⟨rfl, ?_⟩
  intro h
  have h2 : (Except.ok 2 : Except String Nat) = Except.ok 1 := h
  injection h2 with h3
  exact absurd h3 (by decide)

/-- C10: an absent language tag defaults to `"unset"`, and in the
multi-decision case that value is interpolated unchanged, so the output
name carries the literal `.unset.` language segment. -/
theorem C10_unset_language_name (args : Args) (ss : List StreamRec) (path : String)
    (d : Nat × String × Bool) (hd : d ∈ streams_to_extract args ss)
    (hlen : 2 ≤ (streams_to_extract args ss).length) (hu : d.2.1 = "unset") :
    (∀ s : StreamRec, s.tag_language = none → language_of s = "unset") ∧
    final_name (splitext path).1 (streams_to_extract args ss).length d =
      (splitext path).1 ++ ".unset." ++ pyStr d.1 ++
        (if d.2.2 then ".forced" else "") ++ ".srt" := by
  constructor
  · intro s h
    simp [language_of, h]
  · have hne : ((streams_to_extract args ss).length == 1) = false := by
      simp
      omega
    obtain ⟨i, l, f⟩ := d
    have hl : l = "unset" := hu
    rw [hl]
    simp only [final_name, hne, Bool.false_eq_true, if_false]
    apply String.ext
    have e1 : ("." : String).data = ['.'] := rfl
    have e2 : (".unset." : String).data = ['.', 'u', 'n', 's', 'e', 't', '.'] := rfl
    have e3 : ("unset" : String).data = ['u', 'n', 's', 'e', 't'] := rfl
    simp [String.data_append, e1, e2, e3, List.append_assoc]

/-- C10 witness: a file with a French stream and a second stream lacking a
language tag yields two decisions, and the second one's output name is
`movie.unset.1.srt`. -/
theorem C10_unset_language_name_witness :
    ((∀ s : StreamRec, s.tag_language = none → language_of s = "unset") ∧
      final_name (splitext "movie.mkv").1
          (streams_to_extract default_args [ex_s_fra, ex_s_nolang]).length
          (1, "unset", false) =
        (splitext "movie.mkv").1 ++ ".unset." ++ pyStr 1 ++
          (if ((1 : Nat), "unset", false).2.2 then ".forced" else "") ++ ".srt") ∧
    final_name (splitext "movie.mkv").1
        (streams_to_extract default_args [ex_s_fra, ex_s_nolang]).length
        (1, "unset", false) = "movie.unset.1.srt" :=
  ⟨C10_unset_language_name default_args [ex_s_fra, ex_s_nolang] "movie.mkv"
    (1, "unset", false) (by decide) (by decide) rfl, by decide⟩

/-! ## Naming: ordinal injectivity and pairwise distinctness (C3) -/

theorem stripTok_append : ∀ t r : List Char, stripTok t (t ++ r) = some r := by
  intro t
  induction t with
  | nil => intro r; rfl
  | cons a as ih => intro r; simp [stripTok, ih]

theorem takeWhile_append_not (p : Char → Bool) :
    ∀ (A : List Char) (x : Char) (r : List Char), (∀ c ∈ A, p c = true) →
      p x = false → (A ++ x :: r).takeWhile p = A := by
  intro A
  induction A with
  | nil => intro x r _ hx; simp [List.takeWhile_cons, hx]
  | cons a as ih =>
    intro x r hA hx
    have ha : p a = true := hA a (List.mem_cons_self a as)
    simp only [List.cons_append, List.takeWhile_cons, ha, if_pos]
    rw [ih x r (fun c hc => hA c (List.mem_cons_of_mem a hc)) hx]

theorem final_name_data_reverse (fout l : String) (o : Nat) (f : Bool) (c : Nat)
    (hc : (c == 1) = false) :
    (final_name fout c (o, l, f)).data.reverse =
      ['t', 'r', 's', '.'] ++
        ((if f then ['d', 'e', 'c', 'r', 'o', 'f', '.'] else []) ++
          ((pyStr o).data.reverse ++
            ('.' :: (l.data.reverse ++ '.' :: fout.data.reverse)))) := by
  have e1 : ("." : String).data = ['.'] := rfl
  have e2 : (".srt" : String).data = ['.', 's', 'r', 't'] := rfl
  have e3 : (".forced" : String).data = ['.', 'f', 'o', 'r', 'c', 'e', 'd'] := rfl
  have e4 : ("" : String).data = [] := rfl
  cases f with
  | false =>
    simp [final_name, hc, String.data_append, e1, e2, e4, List.reverse_append,
      List.append_assoc]
  | true =>
    simp [final_name, hc, String.data_append, e1, e2, e3, List.reverse_append,
      List.append_assoc]

theorem decodeOrd_final_name (fout l : String) (o : Nat) (f : Bool) (c : Nat)
    (hc : (c == 1) = false) :
    decodeOrd ((final_name fout c (o, l, f)).data.reverse) =
      some ((pyStr o).data.reverse) := by
  rw [final_name_data_reverse fout l o f c hc]
  have hP : ∀ ch ∈ (pyStr o).data.reverse, ch.isDigit = true :=
    fun ch hch => pyStr_data_digits o ch (List.mem_reverse.1 hch)
  have hPne : (pyStr o).data.reverse ≠ [] := by
    simp [pyStr_data_ne_nil o]
  cases hrev : (pyStr o).data.reverse with
  | nil => exact absurd hrev hPne
  | cons ch tl =>
    have hchd : ch.isDigit = true := by
      have := hP ch
      rw [hrev] at this
      exact this (List.mem_cons_self ch tl)
    have hchne : (ch == 'd') = false := by
      apply beq_eq_false_iff_ne.2
      intro hcd
      rw [hcd] at hchd
      exact absurd hchd (by decide)
    have htl : ∀ c2 ∈ tl, c2.isDigit = true := by
      intro c2 hc2
      have := hP c2
      rw [hrev] at this
      exact this (List.mem_cons_of_mem ch hc2)
    have htake : ∀ r : List Char, ((ch :: tl) ++ '.' :: r).takeWhile (fun c2 => c2.isDigit) =
        ch :: tl := by
      intro r
      apply takeWhile_append_not
      · intro c2 hc2
        rcases List.mem_cons.1 hc2 with rfl | h2
        · exact hchd
        · exact htl c2 h2
      · decide
    cases f with
    | false =>
      show decodeOrd (['t', 'r', 's', '.'] ++ ([] ++ _)) = _
      rw [List.nil_append]
      simp only [decodeOrd, stripTok_append]
      rw [List.cons_append]
      simp only [stripTok, hchne, Bool.false_eq_true, if_false]
      rw [← List.cons_append]
      rw [htake]
    | true =>
      show decodeOrd (['t', 'r', 's', '.'] ++ (['d', 'e', 'c', 'r', 'o', 'f', '.'] ++ _)) = _
      simp only [decodeOrd, stripTok_append]
      rw [htake]

theorem final_name_inj_ord {fout l1 l2 : String} {o1 o2 : Nat} {f1 f2 : Bool} {c : Nat}
    (hc : (c == 1) = false)
    (h : final_name fout c (o1, l1, f1) = final_name fout c (o2, l2, f2)) : o1 = o2 := by
  have h1 := decodeOrd_final_name fout l1 o1 f1 c hc
  have h2 := decodeOrd_final_name fout l2 o2 f2 c hc
  rw [h] at h1
  have hsome := h1.symm.trans h2
  injection hsome with hrev
  have hdata : (pyStr o1).data = (pyStr o2).data := by
    have := congrArg List.reverse hrev
    simpa using this
  exact pyStr_inj o1 o2 (String.ext hdata)

theorem le_fst_of_mem_enumFrom {α : Type} :
    ∀ (l : List α) (n : Nat) (p : Nat × α), p ∈ l.enumFrom n → n ≤ p.1 := by
  intro l
  induction l with
  | nil => intro n p h; cases h
  | cons a t ih =>
    intro n p h
    simp only [List.enumFrom] at h
    rcases List.mem_cons.1 h with rfl | htail
    · exact Nat.le_refl n
    · exact Nat.le_trans (Nat.le_succ n) (ih (n + 1) p htail)

theorem pairwise_fst_lt_enumFrom {α : Type} :
    ∀ (l : List α) (n : Nat), (l.enumFrom n).Pairwise (fun p q => p.1 < q.1) := by
  intro l
  induction l with
  | nil => intro n; simp [List.enumFrom]
  | cons a t ih =>
    intro n
    simp only [List.enumFrom]
    refine List.Pairwise.cons ?_ (ih (n + 1))
    intro q hq
    have := le_fst_of_mem_enumFrom t (n + 1) q hq
    omega

theorem streams_to_extract_pairwise (args : Args) (ss : List StreamRec) :
    (streams_to_extract args ss).Pairwise (fun a b => a.1 < b.1) := by
  unfold streams_to_extract
  rw [List.pairwise_map]
  exact List.Pairwise.sublist (List.filter_sublist _)
    (pairwise_fst_lt_enumFrom (subtitle_streams ss) 0)

/-- C3: with exactly one decision the output path is the bare
`<basename>.srt` with no language/ordinal/forced segment; with two or more
decisions each output path is `<basename>.<language>.<ordinal>[.forced].srt`
(`.forced` exactly when the decision is forced), and all computed paths are
pairwise distinct. -/
theorem C3_output_naming (args : Args) (ss : List StreamRec) (path : String) :
    ((streams_to_extract args ss).length = 1 →
      ∀ d ∈ streams_to_extract args ss,
        final_name (splitext path).1 (streams_to_extract args ss).length d =
          (splitext path).1 ++ ".srt") ∧
    (2 ≤ (streams_to_extract args ss).length →
      (∀ d ∈ streams_to_extract args ss,
        final_name (splitext path).1 (streams_to_extract args ss).length d =
          (splitext path).1 ++ "." ++ d.2.1 ++ "." ++ pyStr d.1 ++
            (if d.2.2 then ".forced" else "") ++ ".srt") ∧
      ((streams_to_extract args ss).map
          (fun d => final_name (splitext path).1 (streams_to_extract args ss).length d)).Pairwise
        (fun a b => a ≠ b)) := by
  constructor
  · intro h1 d _
    simp [final_name, h1]
  · intro h2
    have hc : ((streams_to_extract args ss).length == 1) = false := by
      simp
      omega
    refine ⟨?_, ?_⟩
    · intro d _
      obtain ⟨i, l, f⟩ := d
      simp [final_name, hc]
    · rw [List.pairwise_map]
      refine (streams_to_extract_pairwise args ss).imp ?_
      intro a b hab heq
      obtain ⟨i1, l1, f1⟩ := a
      obtain ⟨i2, l2, f2⟩ := b
      exact absurd (final_name_inj_ord hc heq) (Nat.ne_of_lt hab)

/-- C3 witness: a file with a French stream and an untagged stream yields
two decisions whose computed output paths are pairwise distinct. -/
theorem C3_output_naming_witness :
    ((streams_to_extract default_args [ex_s_fra, ex_s_nolang]).map
        (fun d => final_name (splitext "movie.mkv").1
          (streams_to_extract default_args [ex_s_fra, ex_s_nolang]).length d)).Pairwise
      (fun a b => a ≠ b) :=
  ((C3_output_naming default_args [ex_s_fra, ex_s_nolang] "movie.mkv").2 (by decide)).2

end FFExtract
